import Mathlib

/-!
Shallow embedding of `core/mplib/MPSharedList.py` (class `MPSharedList` and the
`ArrayFillerSubprocessor` queue discipline), together with proofs about the
binary layout produced by `bake_data`, indexing through `__getitem__`,
concatenation through `__add__`, and the pending-queue behaviour of the
parallel filler.

Bytes are modelled as natural numbers (`< 256` on every path the code takes),
buffers as `List Nat`.  `pickle.dumps`/`pickle.loads` are modelled by an
abstract `Serializer` record carrying the round-trip law; `struct.pack('<Q',.)`
is `packQ` (eight little-endian base-256 digits, i.e. the value mod 2^64) and
`struct.unpack` of one `Q` is `unpackQ`.  Python errors are represented by the
`PyErr` type and fallible operations return `Except PyErr _`.
-/

namespace DFL

/-- The distinct error exits of the Python code, identified by raise site:
`outOfRange` is `ValueError("out of range")` in `__getitem__`;
`invalidInputKind` is `ValueError("MPSharedList: obj_list should be list type.")`
in `bake_data`; `addTypeError` is the `ValueError` in `__add__` for an
unsupported operand class; `unboundLocal` is the `UnboundLocalError` raised by
`return obj_count, table_offset, data_offset, sh_b` in `bake_data` when
`obj_count == 0` (those three locals are only assigned inside the
`if obj_count != 0:` branch); `nameError` is the `NameError` that would occur
if the component scan loop in `__getitem__` fell through without a break. -/
inductive PyErr where
  | outOfRange
  | invalidInputKind
  | addTypeError
  | unboundLocal
  | nameError
  deriving DecidableEq, Repr

/-- Model of the pickle codec restricted to a type `α`: `dumps` is
`pickle.dumps(·, 4)`, `loads` is `pickle.loads`, `round` is the pickle
round-trip law, and `dumps_pos` records that a pickle payload is never empty. -/
structure Serializer (α : Type) where
  dumps : α → List Nat
  loads : List Nat → α
  round : ∀ a, loads (dumps a) = a
  dumps_pos : ∀ a, 0 < (dumps a).length

/-- Model of `struct.pack('<Q', v)`: eight little-endian base-256 digits of `v`
(equivalently of `v % 2^64`). -/
def packQ (v : Nat) : List Nat :=
  [v % 256, v / 256 % 256, v / 65536 % 256, v / 16777216 % 256,
   v / 4294967296 % 256, v / 1099511627776 % 256,
   v / 281474976710656 % 256, v / 72057594037927936 % 256]

/-- Model of `struct.unpack('<Q', bs)` on an 8-byte string (0 on any other shape). -/
def unpackQ (bs : List Nat) : Nat :=
  match bs with
  | [b0, b1, b2, b3, b4, b5, b6, b7] =>
      b0 + b1 * 256 + b2 * 65536 + b3 * 16777216 + b4 * 4294967296 +
      b5 * 1099511627776 + b6 * 281474976710656 + b7 * 72057594037927936
  | _ => 0

/-- Python slice read `bytes(buf[a:b])`. -/
def sliceBytes (buf : List Nat) (a b : Nat) : List Nat :=
  (buf.drop a).take (b - a)

/-- Python slice assignment `buf[off:off+len(bs)] = bs` (every use in the
source fits inside the buffer, so no resize happens). -/
def writeBytes (buf : List Nat) (off : Nat) (bs : List Nat) : List Nat :=
  buf.take off ++ bs ++ buf.drop (off + bs.length)

/-- The offsets loop of `bake_data`:
`offset = 0; for i in range(obj_count): offsets.append(offset); offset += len(pickled[i]); offsets.append(offset)`,
applied to the list of pickled lengths, starting from accumulator `acc`. -/
def buildOffsets : List Nat → Nat → List Nat
  | [], acc => [acc]
  | l :: ls, acc => acc :: buildOffsets ls (acc + l)

/-- The filler work-item list
`[ (data_offset+offsets[i], obj_pickled_ar[i]) for i in range(obj_count) ]`. -/
def fillerItems (dataOffset : Nat) (offs : List Nat) (ps : List (List Nat)) :
    List (Nat × List Nat) :=
  (List.range ps.length).map (fun i => (dataOffset + offs.getD i 0, ps.getD i []))

/-- The net effect of `ArrayFillerSubprocessor(sh_b, items).run()`: each work
item `(offset, b)` is written by `Cli.process_data` as
`sh_b[offset:offset+len(b)] = b`.  The write ranges are pairwise disjoint, so
the resulting buffer does not depend on which worker performs which write or
in what order; we model the canonical in-order execution. -/
def runFiller (buf : List Nat) (items : List (Nat × List Nat)) : List Nat :=
  items.foldl (fun b it => writeBytes b it.1 it.2) buf

/-- The dynamically-typed argument space of `MPSharedList.__init__` /
`MPSharedList.bake_data`: `none` is Python `None`, `list` a Python list of
picklable objects, and the remaining constructors are representative
non-list values. -/
inductive PyInput (α : Type) where
  | none
  | list (l : List α)
  | int (n : Int)
  | tuple (l : List α)
  | str (s : String)

/-- Model of `MPSharedList.bake_data`.  Returns
`(obj_count, table_offset, data_offset, sh_b)` on success. -/
def bake_data {α : Type} (S : Serializer α) (obj_list : PyInput α) :
    Except PyErr (Nat × Nat × Nat × List Nat) :=
  match obj_list with
  | .list l =>
      let obj_count := l.length
      if obj_count ≠ 0 then
        let obj_pickled_ar := l.map S.dumps
        let table_offset := 0
        let table_size := (obj_count + 1) * 8
        let data_offset := table_offset + table_size
        let data_size := (obj_pickled_ar.map List.length).sum
        let sh_b0 := List.replicate (table_size + data_size) 0
        let sh_b1 := writeBytes sh_b0 0 (packQ obj_count)
        let offsets := buildOffsets (obj_pickled_ar.map List.length) 0
        let sh_b2 := writeBytes sh_b1 table_offset ((offsets.map packQ).flatten)
        let sh_b3 := runFiller sh_b2 (fillerItems data_offset offsets obj_pickled_ar)
        .ok (obj_count, table_offset, data_offset, sh_b3)
      else
        .error .unboundLocal
  | _ => .error .invalidInputKind

/-- The state of an `MPSharedList` object whose four fields hold lists
(i.e. any object that has been baked or assembled by `__add__`). -/
structure MPSharedList (α : Type) where
  obj_counts : List Nat
  table_offsets : List Nat
  data_offsets : List Nat
  sh_bs : List (List Nat)
  deriving Repr

/-- Result of `MPSharedList.__init__`: `uninit` is the `obj_list is None`
branch that leaves all four fields set to `None`. -/
inductive InitResult (α : Type) where
  | uninit
  | made (m : MPSharedList α)

/-- Model of `MPSharedList.__init__`. -/
def MPSharedList.init {α : Type} (S : Serializer α) (obj_list : PyInput α) :
    Except PyErr (InitResult α) :=
  match obj_list with
  | .none => .ok .uninit
  | inp =>
      match bake_data S inp with
      | .error e => .error e
      | .ok (c, t, d, b) => .ok (.made ⟨[c], [t], [d], [b]⟩)

/-- Convenience: build a container from a Python list (the only way the
surrounding code constructs a usable `MPSharedList`). -/
def build {α : Type} (S : Serializer α) (l : List α) :
    Except PyErr (MPSharedList α) :=
  match bake_data S (.list l) with
  | .error e => .error e
  | .ok (c, t, d, b) => .ok ⟨[c], [t], [d], [b]⟩

/-- The dynamically-typed right operand of `MPSharedList.__add__`. -/
inductive AddArg (α : Type) where
  | shared (o : MPSharedList α)
  | int (n : Int)
  | other

/-- Model of `MPSharedList.__add__`. -/
def MPSharedList.add {α : Type} (m : MPSharedList α) :
    AddArg α → Except PyErr (MPSharedList α)
  | .shared o =>
      .ok ⟨m.obj_counts ++ o.obj_counts, m.table_offsets ++ o.table_offsets,
           m.data_offsets ++ o.data_offsets, m.sh_bs ++ o.sh_bs⟩
  | .int _ => .ok m
  | .other => .error .addTypeError

/-- Model of `MPSharedList.__radd__` (`return self+o`). -/
def MPSharedList.radd {α : Type} (m : MPSharedList α) (o : AddArg α) :
    Except PyErr (MPSharedList α) :=
  m.add o

/-- Model of `MPSharedList.__len__`. -/
def MPSharedList.len {α : Type} (m : MPSharedList α) : Nat :=
  m.obj_counts.sum

/-- The component scan loop of `__getitem__`: walk the four parallel field
lists, returning the owning component's `(table_offset, data_offset, sh_b)`
together with the residual key. -/
def findComp : List Nat → List Nat → List Nat → List (List Nat) → Nat →
    Option (Nat × Nat × List Nat × Nat)
  | c :: cs, t :: ts, d :: ds, b :: bs, key =>
      if key < c then some (t, d, b, key) else findComp cs ts ds bs (key - c)
  | _, _, _, _, _ => Option.none

/-- Model of `MPSharedList.__getitem__`. -/
def MPSharedList.getitem {α : Type} (S : Serializer α) (m : MPSharedList α)
    (key : Int) : Except PyErr α :=
  let obj_count : Nat := m.len
  let key1 : Int := if key < 0 then (obj_count : Int) + key else key
  if key1 < 0 ∨ (obj_count : Int) ≤ key1 then .error .outOfRange
  else
    match findComp m.obj_counts m.table_offsets m.data_offsets m.sh_bs key1.toNat with
    | Option.none => .error .nameError
    | some (table_offset, data_offset, sh_b, k) =>
        let pair := sliceBytes sh_b (table_offset + k * 8) (table_offset + (k + 2) * 8)
        let offset_start := unpackQ (pair.take 8)
        let offset_end := unpackQ (pair.drop 8)
        .ok (S.loads (sliceBytes sh_b (data_offset + offset_start) (data_offset + offset_end)))

/-- Model of `ArrayFillerSubprocessor.get_data`: pop the front of `data_list` (Python
`list.pop(0)`) when non-empty, otherwise return `None`; the pair carries the
returned value and the state of `data_list` afterwards. -/
def ArrayFiller.get_data {δ : Type} (data_list : List δ) : Option δ × List δ :=
  if data_list.length > 0 then (data_list.head?, data_list.tail)
  else (Option.none, data_list)

/-- Model of `ArrayFillerSubprocessor.on_data_return`: `data_list.insert(0, data)`. -/
def ArrayFiller.on_data_return {δ : Type} (data_list : List δ) (data : δ) :
    List δ :=
  data :: data_list

/-- A concrete serializer used for witnesses: object `n : Nat` is encoded as
`n + 1` copies of the byte 1. -/
def natSerializer : Serializer Nat where
  dumps n := List.replicate (n + 1) 1
  loads bs := bs.length - 1
  round a := by simp
  dumps_pos a := by simp

/-! ### Derived descriptions of the baked segment

Names for the pieces of the buffer `bake_data` produces, used to state the
layout and indexing theorems. -/

/-- The per-object pickled byte strings `obj_pickled_ar`. -/
def pickledOf {α : Type} (S : Serializer α) (L : List α) : List (List Nat) :=
  L.map S.dumps

/-- The cumulative offset list `offsets` computed by `bake_data`. -/
def offsetsOf {α : Type} (S : Serializer α) (L : List α) : List Nat :=
  buildOffsets ((pickledOf S L).map List.length) 0

/-- The packed offset table `struct.pack('<'+'Q'*len(offsets), *offsets)`. -/
def tableOf {α : Type} (S : Serializer α) (L : List α) : List Nat :=
  ((offsetsOf S L).map packQ).flatten

/-- The concatenated data region. -/
def dataOf {α : Type} (S : Serializer α) (L : List α) : List Nat :=
  (pickledOf S L).flatten

/-- The fully baked buffer: offset table followed by the data region. -/
def bakedBuf {α : Type} (S : Serializer α) (L : List α) : List Nat :=
  tableOf S L ++ dataOf S L

/-- The value `data_size`, the total number of serialized bytes. -/
def dataSize {α : Type} (S : Serializer α) (L : List α) : Nat :=
  ((pickledOf S L).map List.length).sum

/-- Cumulative serialized size of the first `i` elements. -/
def cumSize {α : Type} (S : Serializer α) (L : List α) (i : Nat) : Nat :=
  (((pickledOf S L).map List.length).take i).sum

/-- Writing consecutive byte strings starting at `base`: the normal form of
the filler's work-item list used in the fill proof. -/
def consItems (base : Nat) : List (List Nat) → List (Nat × List Nat)
  | [] => []
  | p :: ps => (base, p) :: consItems (base + p.length) ps

/-- The structural invariant every `MPSharedList` reachable through
`__init__`/`__add__` satisfies: the four parallel field lists have equal
length (one entry per component segment). -/
def MPSharedList.wf {α : Type} (m : MPSharedList α) : Prop :=
  m.table_offsets.length = m.obj_counts.length ∧
  m.data_offsets.length = m.obj_counts.length ∧
  m.sh_bs.length = m.obj_counts.length

/-- Python `isinstance(x, list)`. -/
def PyInput.isList {α : Type} : PyInput α → Bool
  | .list _ => true
  | _ => false

/-! ### Byte-level helper lemmas -/

theorem packQ_length (v : Nat) : (packQ v).length = 8 := rfl

theorem unpackQ_packQ (v : Nat) (h : v < 18446744073709551616) :
    unpackQ (packQ v) = v := by
  simp only [packQ, unpackQ]
  omega

theorem writeBytes_zero (buf bs : List Nat) :
    writeBytes buf 0 bs = bs ++ buf.drop bs.length := by
  simp [writeBytes]

theorem flatten_map_packQ_length (offs : List Nat) :
    ((offs.map packQ).flatten).length = 8 * offs.length := by
  induction offs with
  | nil => simp
  | cons o os ih =>
      simp only [List.map_cons, List.flatten_cons, List.length_append, ih,
        packQ_length, List.length_cons]
      ring

theorem drop_flatten_map_packQ (i : Nat) (offs : List Nat) :
    ((offs.map packQ).flatten).drop (i * 8) = ((offs.drop i).map packQ).flatten := by
  induction i generalizing offs with
  | zero => simp
  | succ j ih =>
      cases offs with
      | nil => simp
      | cons o os =>
          have h8 : (j + 1) * 8 = 8 + j * 8 := by ring
          rw [List.map_cons, List.flatten_cons, h8, ← List.drop_drop]
          have hdl : List.drop 8 (packQ o ++ (os.map packQ).flatten) =
              (os.map packQ).flatten := by
            have := List.drop_left (packQ o) ((os.map packQ).flatten)
            rwa [packQ_length] at this
          rw [hdl, ih]
          rfl

theorem buildOffsets_length (ls : List Nat) (a : Nat) :
    (buildOffsets ls a).length = ls.length + 1 := by
  induction ls generalizing a with
  | nil => rfl
  | cons l ls ih => simp [buildOffsets, ih]

theorem buildOffsets_getElem (ls : List Nat) (a i : Nat)
    (h : i < (buildOffsets ls a).length) :
    (buildOffsets ls a)[i] = a + (ls.take i).sum := by
  induction ls generalizing a i with
  | nil =>
      have : i = 0 := by simpa [buildOffsets] using Nat.lt_one_iff.mp (by
        simpa [buildOffsets] using h)
      subst this
      simp [buildOffsets]
  | cons l ls ih =>
      cases i with
      | zero => simp [buildOffsets]
      | succ j =>
          have hj : j < (buildOffsets ls (a + l)).length := by
            simpa [buildOffsets] using h
          simp only [buildOffsets, List.getElem_cons_succ, ih (a + l) j hj,
            List.take_succ_cons, List.sum_cons]
          omega

theorem sum_take_le (l : List Nat) (i : Nat) : (l.take i).sum ≤ l.sum := by
  conv_rhs => rw [← List.take_append_drop i l]
  rw [List.sum_append]
  omega

theorem drop_sum_take_flatten (i : Nat) (ps : List (List Nat)) :
    (ps.flatten).drop (((ps.map List.length).take i).sum) = (ps.drop i).flatten := by
  induction i generalizing ps with
  | zero => simp
  | succ j ih =>
      cases ps with
      | nil => simp
      | cons p ps =>
          simp only [List.map_cons, List.take_succ_cons, List.sum_cons,
            List.flatten_cons, List.drop_succ_cons]
          rw [← List.drop_drop, List.drop_left, ih]

/-! ### The parallel fill writes the data region -/

theorem fillerItems_eq_consItems (d : Nat) (ps : List (List Nat)) (a : Nat) :
    fillerItems d (buildOffsets (ps.map List.length) a) ps = consItems (d + a) ps := by
  induction ps generalizing a with
  | nil => rfl
  | cons p ps ih =>
      simp only [fillerItems, List.length_cons, List.range_succ_eq_map,
        List.map_cons, List.map_map]
      refine congrArg₂ List.cons rfl ?_
      have hfun : ((fun i =>
            (d + (buildOffsets (p.length :: ps.map List.length) a).getD i 0,
              (p :: ps).getD i [])) ∘ Nat.succ) =
          (fun i => (d + (buildOffsets (ps.map List.length) (a + p.length)).getD i 0,
              ps.getD i [])) := by
        funext i
        simp [buildOffsets, Function.comp]
      rw [hfun]
      have := ih (a + p.length)
      simp only [fillerItems] at this
      rw [this]
      have : d + a + p.length = d + (a + p.length) := by ring
      rw [this]

theorem writeBytes_at_append (C rest p : List Nat) :
    writeBytes (C ++ rest) C.length p = (C ++ p) ++ rest.drop p.length := by
  simp only [writeBytes, List.take_left]
  rw [List.drop_append_eq_append_drop]
  simp

theorem runFiller_consItems (ps : List (List Nat)) (C rest : List Nat)
    (h : (ps.map List.length).sum ≤ rest.length) :
    runFiller (C ++ rest) (consItems C.length ps) =
      (C ++ ps.flatten) ++ rest.drop ((ps.map List.length).sum) := by
  induction ps generalizing C rest with
  | nil => simp [runFiller, consItems]
  | cons p ps ih =>
      simp only [consItems, runFiller, List.foldl_cons]
      rw [show (writeBytes (C ++ rest) C.length p) = (C ++ p) ++ rest.drop p.length from
        writeBytes_at_append C rest p]
      have hlen : (C ++ p).length = C.length + p.length := by simp
      have hrest : (ps.map List.length).sum ≤ (rest.drop p.length).length := by
        simp only [List.length_drop]
        simp only [List.map_cons, List.sum_cons] at h
        omega
      have := ih (C ++ p) (rest.drop p.length) hrest
      simp only [runFiller] at this
      rw [← hlen, this, List.drop_drop]
      simp [List.append_assoc]

/-! ### Shape of the buffer produced by `bake_data` -/

theorem tableOf_length {α : Type} (S : Serializer α) (L : List α) :
    (tableOf S L).length = (L.length + 1) * 8 := by
  simp only [tableOf, flatten_map_packQ_length, offsetsOf, buildOffsets_length,
    List.length_map, pickledOf]
  ring

theorem dataOf_length {α : Type} (S : Serializer α) (L : List α) :
    (dataOf S L).length = dataSize S L := by
  simp [dataOf, dataSize, List.length_flatten]

theorem bake_data_eq {α : Type} (S : Serializer α) (L : List α) (hL : L ≠ []) :
    bake_data S (.list L) =
      .ok (L.length, 0, (L.length + 1) * 8, bakedBuf S L) := by
  have hn : ¬ L.length = 0 := by simpa using hL
  have h1 : writeBytes (List.replicate ((L.length + 1) * 8 + dataSize S L) 0) 0
        (packQ L.length) =
      packQ L.length ++ List.replicate ((L.length + 1) * 8 + dataSize S L - 8) 0 := by
    rw [writeBytes_zero, packQ_length, List.drop_replicate]
  have h2 : writeBytes
        (packQ L.length ++ List.replicate ((L.length + 1) * 8 + dataSize S L - 8) 0) 0
        (tableOf S L) = tableOf S L ++ List.replicate (dataSize S L) 0 := by
    rw [writeBytes_zero, tableOf_length, List.drop_append_eq_append_drop,
      List.drop_eq_nil_of_le (by rw [packQ_length]; omega), packQ_length,
      List.drop_replicate]
    have harith : (L.length + 1) * 8 + dataSize S L - 8 - ((L.length + 1) * 8 - 8) =
        dataSize S L := by omega
    rw [harith]
    simp
  have h3 : fillerItems ((L.length + 1) * 8) (offsetsOf S L) (pickledOf S L) =
      consItems ((L.length + 1) * 8) (pickledOf S L) := by
    have := fillerItems_eq_consItems ((L.length + 1) * 8) (pickledOf S L) 0
    simpa [offsetsOf] using this
  have h4 : runFiller (tableOf S L ++ List.replicate (dataSize S L) 0)
        (consItems ((L.length + 1) * 8) (pickledOf S L)) = bakedBuf S L := by
    have hc : consItems ((L.length + 1) * 8) (pickledOf S L) =
        consItems (tableOf S L).length (pickledOf S L) := by
      rw [tableOf_length]
    rw [hc, runFiller_consItems (pickledOf S L) (tableOf S L)
      (List.replicate (dataSize S L) 0) (by simp [dataSize])]
    simp [dataSize, bakedBuf, dataOf]
  simp only [bake_data, hn, if_false, ite_not, if_neg, not_false_iff, ite_true]
  simp only [Nat.zero_add]
  rw [show ((L.map S.dumps).map List.length).sum = dataSize S L from rfl,
    show L.map S.dumps = pickledOf S L from rfl,
    show buildOffsets ((pickledOf S L).map List.length) 0 = offsetsOf S L from rfl,
    show ((offsetsOf S L).map packQ).flatten = tableOf S L from rfl,
    h1, h2, h3, h4]

/-! ### Reading table entries and data ranges back out of the baked buffer -/

theorem offsetsOf_length {α : Type} (S : Serializer α) (L : List α) :
    (offsetsOf S L).length = L.length + 1 := by
  simp [offsetsOf, buildOffsets_length, pickledOf]

theorem offsetsOf_getElem {α : Type} (S : Serializer α) (L : List α) (i : Nat)
    (h : i < (offsetsOf S L).length) :
    (offsetsOf S L)[i] = cumSize S L i := by
  simp only [offsetsOf] at h ⊢
  rw [buildOffsets_getElem _ _ _ h]
  simp [cumSize, pickledOf]

theorem cumSize_le_dataSize {α : Type} (S : Serializer α) (L : List α) (i : Nat) :
    cumSize S L i ≤ dataSize S L :=
  sum_take_le _ _

theorem sliceBytes_table {α : Type} (S : Serializer α) (L : List α) (i : Nat)
    (hi : i + 1 ≤ L.length) :
    sliceBytes (bakedBuf S L) (i * 8) ((i + 2) * 8) =
      packQ (cumSize S L i) ++ packQ (cumSize S L (i + 1)) := by
  have hoffl : (offsetsOf S L).length = L.length + 1 := offsetsOf_length S L
  have hi1 : i < (offsetsOf S L).length := by omega
  have hi2 : i + 1 < (offsetsOf S L).length := by omega
  have h16 : (i + 2) * 8 - i * 8 = 16 := by omega
  rw [sliceBytes, h16, bakedBuf, List.drop_append_eq_append_drop, tableOf_length,
    show i * 8 - (L.length + 1) * 8 = 0 from by omega, List.drop_zero]
  rw [show tableOf S L = ((offsetsOf S L).map packQ).flatten from rfl,
    drop_flatten_map_packQ, List.drop_eq_getElem_cons hi1,
    List.drop_eq_getElem_cons hi2, List.map_cons, List.map_cons,
    List.flatten_cons, List.flatten_cons]
  rw [List.take_append_eq_append_take]
  have hxl : (packQ ((offsetsOf S L)[i]) ++
      (packQ ((offsetsOf S L)[i + 1]) ++
        (((offsetsOf S L).drop (i + 1 + 1)).map packQ).flatten)).length ≥ 16 := by
    simp [packQ_length]
    omega
  rw [show 16 - (packQ ((offsetsOf S L)[i]) ++
      (packQ ((offsetsOf S L)[i + 1]) ++
        (((offsetsOf S L).drop (i + 1 + 1)).map packQ).flatten)).length = 0 from by
    omega, List.take_zero, List.append_nil]
  rw [List.take_append_eq_append_take,
    List.take_of_length_le (by rw [packQ_length]; omega),
    show (16 : Nat) - (packQ ((offsetsOf S L)[i])).length = 8 from by
      rw [packQ_length]]
  have htk : List.take 8 (packQ ((offsetsOf S L)[i + 1]) ++
      (((offsetsOf S L).drop (i + 1 + 1)).map packQ).flatten) =
      packQ ((offsetsOf S L)[i + 1]) := by
    have := List.take_left (packQ ((offsetsOf S L)[i + 1]))
      ((((offsetsOf S L).drop (i + 1 + 1)).map packQ).flatten)
    rwa [packQ_length] at this
  rw [htk, offsetsOf_getElem S L i hi1, offsetsOf_getElem S L (i + 1) hi2]

theorem cumSize_succ {α : Type} (S : Serializer α) (L : List α) (i : Nat)
    (hi : i < L.length) :
    cumSize S L (i + 1) = cumSize S L i + (S.dumps (L[i])).length := by
  have hb : i < ((pickledOf S L).map List.length).length := by
    simp [pickledOf]
    omega
  simp only [cumSize]
  rw [List.sum_take_succ _ _ hb]
  congr 1
  rw [List.getElem_map]
  simp [pickledOf]

theorem sliceBytes_data {α : Type} (S : Serializer α) (L : List α) (i : Nat)
    (hi : i < L.length) :
    sliceBytes (bakedBuf S L) ((L.length + 1) * 8 + cumSize S L i)
      ((L.length + 1) * 8 + cumSize S L (i + 1)) = S.dumps (L[i]) := by
  have hpl : i < (pickledOf S L).length := by simp [pickledOf]; omega
  have hcs := cumSize_succ S L i hi
  rw [sliceBytes, bakedBuf, List.drop_append_eq_append_drop,
    List.drop_eq_nil_of_le (by rw [tableOf_length]; omega), tableOf_length,
    show (L.length + 1) * 8 + cumSize S L i - (L.length + 1) * 8 = cumSize S L i from by
      omega, List.nil_append]
  have hdrop : (dataOf S L).drop (cumSize S L i) =
      ((pickledOf S L).drop i).flatten := drop_sum_take_flatten i (pickledOf S L)
  rw [hdrop, List.drop_eq_getElem_cons hpl, List.flatten_cons]
  rw [show (L.length + 1) * 8 + cumSize S L (i + 1) -
      ((L.length + 1) * 8 + cumSize S L i) = (S.dumps (L[i])).length from by omega]
  have hget : (pickledOf S L)[i] = S.dumps (L[i]) := by
    simp only [pickledOf]
    rw [List.getElem_map]
  rw [hget, List.take_left]

theorem baked_read {α : Type} (S : Serializer α) (L : List α)
    (hD : dataSize S L < 18446744073709551616) (i : Nat) (hi : i < L.length) :
    S.loads (sliceBytes (bakedBuf S L)
      ((L.length + 1) * 8 +
        unpackQ ((sliceBytes (bakedBuf S L) (i * 8) ((i + 2) * 8)).take 8))
      ((L.length + 1) * 8 +
        unpackQ ((sliceBytes (bakedBuf S L) (i * 8) ((i + 2) * 8)).drop 8))) = L[i] := by
  rw [sliceBytes_table S L i (by omega)]
  have ht8 : (packQ (cumSize S L i) ++ packQ (cumSize S L (i + 1))).take 8 =
      packQ (cumSize S L i) := by
    have := List.take_left (packQ (cumSize S L i)) (packQ (cumSize S L (i + 1)))
    rwa [packQ_length] at this
  have hd8 : (packQ (cumSize S L i) ++ packQ (cumSize S L (i + 1))).drop 8 =
      packQ (cumSize S L (i + 1)) := by
    have := List.drop_left (packQ (cumSize S L i)) (packQ (cumSize S L (i + 1)))
    rwa [packQ_length] at this
  rw [ht8, hd8, unpackQ_packQ _ (by have := cumSize_le_dataSize S L i; omega),
    unpackQ_packQ _ (by have := cumSize_le_dataSize S L (i + 1); omega),
    sliceBytes_data S L i hi, S.round]

/-! ### `build` and `__getitem__` on built containers -/

theorem build_eq {α : Type} (S : Serializer α) (L : List α) (hL : L ≠ []) :
    build S L =
      .ok ⟨[L.length], [0], [(L.length + 1) * 8], [bakedBuf S L]⟩ := by
  rw [build, bake_data_eq S L hL]

theorem getitem_built {α : Type} (S : Serializer α) (L : List α)
    (hD : dataSize S L < 18446744073709551616) (i : Nat) (hi : i < L.length) :
    (MPSharedList.mk [L.length] [0] [(L.length + 1) * 8] [bakedBuf S L]).getitem S
      (i : Int) = .ok (L[i]) := by
  simp only [MPSharedList.getitem, MPSharedList.len, List.sum_cons, List.sum_nil,
    Nat.add_zero]
  rw [if_neg (by omega)]
  rw [if_neg (by omega)]
  simp only [findComp, Int.toNat_natCast]
  rw [if_pos hi]
  simp only [Nat.zero_add]
  exact congrArg Except.ok (baked_read S L hD i hi)

theorem build_wf {α : Type} (S : Serializer α) (L : List α) (m : MPSharedList α)
    (h : build S L = .ok m) : m.wf := by
  unfold build at h
  rcases hb : bake_data S (.list L) with e | r
  · rw [hb] at h
    cases h
  · rw [hb] at h
    obtain ⟨c, t, d, b⟩ := r
    cases h
    exact ⟨rfl, rfl, rfl⟩

theorem add_wf {α : Type} (m o r : MPSharedList α) (hm : m.wf) (ho : o.wf)
    (h : m.add (.shared o) = .ok r) : r.wf := by
  cases h
  obtain ⟨hm1, hm2, hm3⟩ := hm
  obtain ⟨ho1, ho2, ho3⟩ := ho
  refine ⟨?_, ?_, ?_⟩ <;> simp [MPSharedList.wf, hm1, hm2, hm3, ho1, ho2, ho3]

theorem findComp_isSome (cs : List Nat) :
    ∀ (ts ds : List Nat) (bs : List (List Nat)) (key : Nat),
      ts.length = cs.length → ds.length = cs.length → bs.length = cs.length →
      key < cs.sum → (findComp cs ts ds bs key).isSome := by
  induction cs with
  | nil => intro ts ds bs key _ _ _ hk; simp at hk
  | cons c cs ih =>
      intro ts ds bs key ht hd hb hk
      cases ts with
      | nil => simp at ht
      | cons t ts =>
          cases ds with
          | nil => simp at hd
          | cons d ds =>
              cases bs with
              | nil => simp at hb
              | cons b bs =>
                  simp only [findComp]
                  by_cases hc : key < c
                  · rw [if_pos hc]
                    rfl
                  · rw [if_neg hc]
                    refine ih ts ds bs (key - c) (by simpa using ht)
                      (by simpa using hd) (by simpa using hb) ?_
                    simp only [List.sum_cons] at hk
                    omega

theorem sum_take_mono (l : List Nat) (i j : Nat) (hij : i ≤ j) :
    (l.take i).sum ≤ (l.take j).sum := by
  have h := sum_take_le (l.take j) i
  rwa [List.take_take, Nat.min_eq_left hij] at h

theorem sliceBytes_dataOf {α : Type} (S : Serializer α) (L : List α) (i : Nat)
    (hi : i < L.length) :
    sliceBytes (dataOf S L) (cumSize S L i) (cumSize S L (i + 1)) = S.dumps (L[i]) := by
  have hpl : i < (pickledOf S L).length := by simp [pickledOf]; omega
  have hcs := cumSize_succ S L i hi
  have hdrop : (dataOf S L).drop (cumSize S L i) =
      ((pickledOf S L).drop i).flatten := drop_sum_take_flatten i (pickledOf S L)
  rw [sliceBytes, hdrop, List.drop_eq_getElem_cons hpl, List.flatten_cons,
    show cumSize S L (i + 1) - cumSize S L i = (S.dumps (L[i])).length from by omega]
  have hget : (pickledOf S L)[i] = S.dumps (L[i]) := by
    simp only [pickledOf]
    rw [List.getElem_map]
  rw [hget, List.take_left]

/-! ### Claim theorems -/

/-- C1: for every non-empty list `L` of serializable objects (whose total
serialized size fits the unsigned 64-bit offsets), building a container from
`L` succeeds, its length equals `len(L)`, and `get(i)` deserializes back an
object equal to `L[i]` for every `0 ≤ i < len(L)`. -/
theorem c1_build_roundtrip {α : Type} (S : Serializer α) (L : List α)
    (hL : L ≠ []) (hD : dataSize S L < 18446744073709551616) :
    ∃ m : MPSharedList α, build S L = .ok m ∧ m.len = L.length ∧
      ∀ (i : Nat) (hi : i < L.length), m.getitem S (i : Int) = .ok (L[i]) := by
  refine ⟨_, build_eq S L hL, ?_, ?_⟩
  · simp [MPSharedList.len]
  · intro i hi
    exact getitem_built S L hD i hi

/-- Witness for C1 at `L = [2, 0, 1]` with the concrete `natSerializer`. -/
theorem c1_build_roundtrip_witness :
    ∃ m : MPSharedList Nat, build natSerializer [2, 0, 1] = .ok m ∧
      m.len = [2, 0, 1].length ∧
      ∀ (i : Nat) (hi : i < [2, 0, 1].length),
        m.getitem natSerializer (i : Int) = .ok ([2, 0, 1][i]) :=
  c1_build_roundtrip natSerializer [2, 0, 1] (by decide) (by decide)

/-- C5 (code bug): `bake_data` on the empty list does not return an empty
container; it raises `UnboundLocalError`, because `table_offset`,
`data_offset` and `sh_b` are only assigned inside the `if obj_count != 0:`
branch yet appear in the function's `return` statement.  Consequently
`MPSharedList([])` raises as well. -/
theorem c5_empty_list_raises :
    bake_data natSerializer (.list ([] : List Nat)) = .error .unboundLocal ∧
      MPSharedList.init natSerializer (.list ([] : List Nat)) = .error .unboundLocal :=
  ⟨rfl, rfl⟩

/-- C6 counterexample: `MPSharedList.__init__` called with `None` — which is
not a list-like ordered collection — succeeds (setting all fields to `None`)
instead of failing with the invalid-input error, refuting the claim that
construction fails for *every* non-collection argument. -/
theorem c6_counterexample :
    MPSharedList.init natSerializer (PyInput.none (α := Nat)) = .ok .uninit ∧
      MPSharedList.init natSerializer (PyInput.none (α := Nat)) ≠
        .error .invalidInputKind :=
  ⟨rfl, fun h => nomatch h⟩

/-- C6 (amended): for every argument that is neither a Python list nor
`None`, construction fails with the `InvalidInputKind` error
(`ValueError("MPSharedList: obj_list should be list type.")`); the `None`
argument is accepted and produces an uninitialized container. -/
theorem c6_nonlist_rejected {α : Type} (S : Serializer α) (inp : PyInput α)
    (h1 : inp ≠ .none) (h2 : inp.isList = false) :
    MPSharedList.init S inp = .error .invalidInputKind := by
  cases inp with
  | none => exact absurd rfl h1
  | list l => simp [PyInput.isList] at h2
  | int n => rfl
  | tuple l => rfl
  | str s => rfl

/-- Witness for C6 (amended) at the concrete non-list argument `5 : int`. -/
theorem c6_nonlist_rejected_witness :
    (PyInput.int 5 : PyInput Nat) ≠ .none ∧
      (PyInput.int 5 : PyInput Nat).isList = false ∧
      MPSharedList.init natSerializer (PyInput.int 5) = .error .invalidInputKind :=
  by
  have hne : (PyInput.int 5 : PyInput Nat) ≠ .none := by intro h; cases h
  exact ⟨hne, rfl, c6_nonlist_rejected natSerializer (PyInput.int 5) hne rfl⟩

/-- C8: adding the integer `0` on either side (`__add__` or `__radd__`, the
latter being what `sum()` invokes) returns the container itself unchanged —
the same object, hence the same length and the same elements in order — and
raises no error. -/
theorem c8_zero_identity {α : Type} (m : MPSharedList α) :
    m.add (.int 0) = .ok m ∧ m.radd (.int 0) = .ok m :=
  ⟨rfl, rfl⟩

/-- C10: the integer-operand branch of `__add__` ignores the integer's value:
for *every* integer `n`, `m + n` (and `n + m` via `__radd__`) returns `m`
itself unchanged, with no error raised for nonzero `n`. -/
theorem c10_any_int_identity {α : Type} (m : MPSharedList α) (n : Int) :
    m.add (.int n) = .ok m ∧ m.radd (.int n) = .ok m :=
  ⟨rfl, rfl⟩

/-- C9: the parallel-fill pending-queue discipline of
`ArrayFillerSubprocessor`: `get_data` pops and returns the front of the
pending list, returns the no-more-work signal `None` exactly when the list is
empty, and `on_data_return` re-inserts a returned item at the front, so a
returned item is the next one popped. -/
theorem c9_queue_discipline {δ : Type} :
    (∀ (d : δ) (l : List δ), ArrayFiller.get_data (d :: l) = (some d, l)) ∧
      (ArrayFiller.get_data ([] : List δ) = (Option.none, [])) ∧
      (∀ (l : List δ) (d : δ), ArrayFiller.on_data_return l d = d :: l) ∧
      (∀ (l : List δ) (d : δ),
        ArrayFiller.get_data (ArrayFiller.on_data_return l d) = (some d, l)) := by
  refine ⟨fun d l => ?_, rfl, fun l d => rfl, fun l d => ?_⟩ <;>
    simp [ArrayFiller.get_data, ArrayFiller.on_data_return]

/-- C2 counterexample: baking the two-element list `[0, 0]` yields a buffer
whose first eight bytes decode the first offset-table entry (`0`), not the
little-endian u64 `object_count` (`2`): `sh_b[0:8] = struct.pack('<Q', obj_count)`
is immediately overwritten by the offset table, which also starts at byte 0. -/
theorem c2_counterexample :
    bake_data natSerializer (.list [0, 0]) =
      .ok (2, 0, 24, bakedBuf natSerializer [0, 0]) ∧
      sliceBytes (bakedBuf natSerializer [0, 0]) 0 8 = packQ 0 ∧
      sliceBytes (bakedBuf natSerializer [0, 0]) 0 8 ≠ packQ 2 := by
  refine ⟨rfl, by decide, by decide⟩

/-- C2 (amended): for every non-empty input list (with total serialized size
below 2^64), the baked buffer consists of the `(object_count+1)`-entry
little-endian u64 offset table at `table_offset = 0` followed by the
concatenated data at `data_offset = (object_count+1)*8`, and its size is
exactly table plus data with no separate header slot: the u64 `object_count`
written at byte offset 0 is immediately overwritten by the first table entry,
so bytes `[0, 8)` of the final buffer hold `offsets[0] = 0`, not
`object_count`. -/
theorem c2_layout {α : Type} (S : Serializer α) (L : List α) (hL : L ≠ [])
    (hD : dataSize S L < 18446744073709551616) :
    bake_data S (.list L) = .ok (L.length, 0, (L.length + 1) * 8, bakedBuf S L) ∧
      bakedBuf S L = tableOf S L ++ dataOf S L ∧
      (tableOf S L).length = (L.length + 1) * 8 ∧
      (bakedBuf S L).length = (L.length + 1) * 8 + dataSize S L ∧
      sliceBytes (bakedBuf S L) 0 8 = packQ 0 := by
  refine ⟨bake_data_eq S L hL, rfl, tableOf_length S L, ?_, ?_⟩
  · simp [bakedBuf, tableOf_length, dataOf_length]
  · cases L with
    | nil => exact absurd rfl hL
    | cons x xs =>
        have hoff : offsetsOf S (x :: xs) =
            0 :: buildOffsets ((xs.map S.dumps).map List.length)
              (0 + (S.dumps x).length) := rfl
        rw [sliceBytes, List.drop_zero, Nat.sub_zero, bakedBuf,
          show tableOf S (x :: xs) = ((offsetsOf S (x :: xs)).map packQ).flatten
            from rfl, hoff,
          List.map_cons, List.flatten_cons, List.append_assoc]
        have := List.take_left (packQ 0)
          (((buildOffsets ((xs.map S.dumps).map List.length)
              (0 + (S.dumps x).length)).map packQ).flatten ++ dataOf S (x :: xs))
        rwa [packQ_length] at this

/-- Witness for C2 (amended) at `L = [1, 2]` with `natSerializer`. -/
theorem c2_layout_witness :
    bake_data natSerializer (.list [1, 2]) =
      .ok ([1, 2].length, 0, ([1, 2].length + 1) * 8, bakedBuf natSerializer [1, 2]) ∧
      bakedBuf natSerializer [1, 2] = tableOf natSerializer [1, 2] ++ dataOf natSerializer [1, 2] ∧
      (tableOf natSerializer [1, 2]).length = ([1, 2].length + 1) * 8 ∧
      (bakedBuf natSerializer [1, 2]).length =
        ([1, 2].length + 1) * 8 + dataSize natSerializer [1, 2] ∧
      sliceBytes (bakedBuf natSerializer [1, 2]) 0 8 = packQ 0 :=
  c2_layout natSerializer [1, 2] (by decide) (by decide)

/-- C3 counterexample: the claim quantifies over *all* lists `A`, `B`, but
`build([])` does not produce a container at all — it raises
`UnboundLocalError` — so `concat(build([]), build(B)).get(i)` is undefined
for the concrete input `A = []`. -/
theorem c3_counterexample :
    build natSerializer ([] : List Nat) = .error .unboundLocal :=
  rfl

/-- C3 (amended): for all *non-empty* lists `A` and `B` (with serialized
sizes below 2^64), concatenating the container built from `A` with the one
built from `B` produces a container whose four component-field lists are the
concatenations of the operands' fields (the same buffers, no data copied),
whose length is `len(A)+len(B)`, and whose `get(i)` is `A[i]` for
`i < len(A)` and `B[i-len(A)]` for `len(A) ≤ i < len(A)+len(B)`. -/
theorem c3_concat {α : Type} (S : Serializer α) (A B : List α)
    (hA : A ≠ []) (hB : B ≠ [])
    (hDA : dataSize S A < 18446744073709551616)
    (hDB : dataSize S B < 18446744073709551616) :
    ∃ ma mb mc : MPSharedList α,
      build S A = .ok ma ∧ build S B = .ok mb ∧
      ma.add (.shared mb) = .ok mc ∧
      mc.obj_counts = ma.obj_counts ++ mb.obj_counts ∧
      mc.table_offsets = ma.table_offsets ++ mb.table_offsets ∧
      mc.data_offsets = ma.data_offsets ++ mb.data_offsets ∧
      mc.sh_bs = ma.sh_bs ++ mb.sh_bs ∧
      mc.len = A.length + B.length ∧
      (∀ (i : Nat) (hi : i < A.length), mc.getitem S (i : Int) = .ok (A[i])) ∧
      (∀ (i : Nat) (hle : A.length ≤ i) (hi : i < A.length + B.length),
        mc.getitem S (i : Int) = .ok (B.get ⟨i - A.length, by omega⟩)) := by
  refine ⟨_, _, _, build_eq S A hA, build_eq S B hB, rfl, rfl, rfl, rfl, rfl, ?_, ?_, ?_⟩
  · simp [MPSharedList.len]
  · intro i hi
    simp only [MPSharedList.getitem, MPSharedList.len, List.cons_append,
      List.nil_append, List.sum_cons, List.sum_nil, Nat.add_zero]
    rw [if_neg (by omega), if_neg (by omega)]
    simp only [findComp, Int.toNat_natCast]
    rw [if_pos hi]
    simp only [Nat.zero_add]
    exact congrArg Except.ok (baked_read S A hDA i hi)
  · intro i hle hi
    simp only [MPSharedList.getitem, MPSharedList.len, List.cons_append,
      List.nil_append, List.sum_cons, List.sum_nil, Nat.add_zero]
    rw [if_neg (by omega), if_neg (by omega)]
    simp only [findComp, Int.toNat_natCast]
    rw [if_neg (by omega), if_pos (by omega)]
    simp only [Nat.zero_add]
    rw [List.get_eq_getElem]
    exact congrArg Except.ok (baked_read S B hDB (i - A.length) (by omega))

/-- Witness for C3 (amended) at `A = [1, 2]`, `B = [3]` with `natSerializer`. -/
theorem c3_concat_witness :
    ∃ ma mb mc : MPSharedList Nat,
      build natSerializer [1, 2] = .ok ma ∧ build natSerializer [3] = .ok mb ∧
      ma.add (.shared mb) = .ok mc ∧
      mc.obj_counts = ma.obj_counts ++ mb.obj_counts ∧
      mc.table_offsets = ma.table_offsets ++ mb.table_offsets ∧
      mc.data_offsets = ma.data_offsets ++ mb.data_offsets ∧
      mc.sh_bs = ma.sh_bs ++ mb.sh_bs ∧
      mc.len = [1, 2].length + [3].length ∧
      (∀ (i : Nat) (hi : i < [1, 2].length),
        mc.getitem natSerializer (i : Int) = .ok ([1, 2][i])) ∧
      (∀ (i : Nat) (hle : [1, 2].length ≤ i)
          (hi : i < [1, 2].length + [3].length),
        mc.getitem natSerializer (i : Int) =
          .ok ([3].get ⟨i - [1, 2].length, by omega⟩)) :=
  c3_concat natSerializer [1, 2] [3] (by decide) (by decide) (by decide) (by decide)

/-- C4: for every well-formed container and every integer index `k`, `get(k)`
fails with the out-of-range error exactly when `k` lies outside
`[-len, len)` (and succeeds exactly when `k` is inside); and on a container
built from a non-empty `L`, the in-range negative index `-1` is normalized by
adding the length, returning the last element `L[len(L)-1]`. -/
theorem c4_index_bounds {α : Type} (S : Serializer α) :
    (∀ m : MPSharedList α, m.wf → ∀ k : Int,
        ((∃ v, m.getitem S k = .ok v) ↔
          (-(m.len : Int) ≤ k ∧ k < (m.len : Int))) ∧
        (m.getitem S k = .error .outOfRange ↔
          (k < -(m.len : Int) ∨ (m.len : Int) ≤ k))) ∧
      (∀ (L : List α) (hn : 0 < L.length),
        dataSize S L < 18446744073709551616 →
        ∀ m : MPSharedList α, build S L = .ok m →
          m.getitem S (-1) = .ok (L.get ⟨L.length - 1, by omega⟩)) := by
  constructor
  · intro m hwf k
    obtain ⟨h1, h2, h3⟩ := hwf
    by_cases hout : k < -(m.len : Int) ∨ (m.len : Int) ≤ k
    · have herr : m.getitem S k = .error .outOfRange := by
        simp only [MPSharedList.getitem]
        rw [if_pos (by split <;> omega)]
      refine ⟨⟨fun ⟨v, hv⟩ => ?_, fun hin => ?_⟩, ⟨fun _ => hout, fun _ => herr⟩⟩
      · rw [herr] at hv
        exact nomatch hv
      · omega
    · push_neg at hout
      have hcond : ¬((if k < 0 then (m.len : Int) + k else k) < 0 ∨
          (m.len : Int) ≤ (if k < 0 then (m.len : Int) + k else k)) := by
        split <;> omega
      have hk : (if k < 0 then (m.len : Int) + k else k).toNat < m.obj_counts.sum := by
        have : m.obj_counts.sum = m.len := rfl
        rw [this]
        split <;> omega
      have hs := findComp_isSome m.obj_counts m.table_offsets m.data_offsets m.sh_bs
        (if k < 0 then (m.len : Int) + k else k).toNat h1 h2 h3 hk
      obtain ⟨⟨t, d, b, k1⟩, heq⟩ := Option.isSome_iff_exists.mp hs
      have hok : ∃ v, m.getitem S k = .ok v := by
        simp only [MPSharedList.getitem]
        rw [if_neg hcond]
        simp only [heq]
        exact ⟨_, rfl⟩
      obtain ⟨v, hv⟩ := hok
      refine ⟨⟨fun _ => ⟨hout.1, hout.2⟩, fun _ => ⟨v, hv⟩⟩, ⟨fun he => ?_, fun hr => ?_⟩⟩
      · rw [hv] at he
        exact nomatch he
      · omega
  · intro L hn hD m hm
    have hL : L ≠ [] := by
      intro h
      subst h
      simp at hn
    rw [build_eq S L hL] at hm
    cases hm
    simp only [MPSharedList.getitem, MPSharedList.len, List.sum_cons, List.sum_nil,
      Nat.add_zero]
    rw [if_pos (by norm_num : (-1 : Int) < 0), if_neg (by omega)]
    simp only [findComp]
    rw [show ((L.length : Int) + (-1)).toNat = L.length - 1 from by omega,
      if_pos (by omega)]
    simp only [Nat.zero_add]
    rw [List.get_eq_getElem]
    exact congrArg Except.ok (baked_read S L hD (L.length - 1) (by omega))

/-- Witness for C4 on the container built from `[5]`: index 3 is rejected as
out of range, and `get(-1)` returns the last element `5`. -/
theorem c4_index_bounds_witness :
    (((⟨[1], [0], [16], [bakedBuf natSerializer [5]]⟩ : MPSharedList Nat).getitem
        natSerializer 3 = .error .outOfRange) ↔
      ((3 : Int) <
          -(((⟨[1], [0], [16], [bakedBuf natSerializer [5]]⟩ :
              MPSharedList Nat).len : Int)) ∨
        (((⟨[1], [0], [16], [bakedBuf natSerializer [5]]⟩ :
            MPSharedList Nat).len : Int)) ≤ 3)) ∧
    (⟨[1], [0], [16], [bakedBuf natSerializer [5]]⟩ : MPSharedList Nat).getitem
        natSerializer (-1) = .ok ([5].get ⟨[5].length - 1, by decide⟩) := by
  have h := c4_index_bounds (α := Nat) natSerializer
  refine ⟨(h.1 ⟨[1], [0], [16], [bakedBuf natSerializer [5]]⟩ ⟨rfl, rfl, rfl⟩ 3).2, ?_⟩
  exact h.2 [5] (by decide) (by decide)
    ⟨[1], [0], [16], [bakedBuf natSerializer [5]]⟩ (build_eq natSerializer [5] (by decide))

/-- C7: for every (non-empty, hence bakeable) input list, the offset list has
`object_count + 1` entries, starts at 0, is non-decreasing, ends at the total
data-region length, entry `i` is the cumulative serialized size of elements
`[0, i)`, and element `i` occupies the byte range `[offsets[i], offsets[i+1])`
of the data region. -/
theorem c7_offset_table {α : Type} (S : Serializer α) (L : List α) (hL : L ≠ []) :
    bake_data S (.list L) =
      .ok (L.length, 0, (L.length + 1) * 8, tableOf S L ++ dataOf S L) ∧
      (offsetsOf S L).length = L.length + 1 ∧
      (offsetsOf S L).getD 0 0 = 0 ∧
      (∀ i j, i ≤ j → j ≤ L.length →
        (offsetsOf S L).getD i 0 ≤ (offsetsOf S L).getD j 0) ∧
      (offsetsOf S L).getD L.length 0 = dataSize S L ∧
      (∀ i, i ≤ L.length → (offsetsOf S L).getD i 0 = cumSize S L i) ∧
      (∀ (i : Nat) (hi : i < L.length),
        sliceBytes (dataOf S L) ((offsetsOf S L).getD i 0)
          ((offsetsOf S L).getD (i + 1) 0) = S.dumps (L[i])) := by
  have hgetD : ∀ i, i ≤ L.length → (offsetsOf S L).getD i 0 = cumSize S L i := by
    intro i hi
    rw [List.getD_eq_getElem _ _ (by rw [offsetsOf_length]; omega)]
    exact offsetsOf_getElem S L i (by rw [offsetsOf_length]; omega)
  refine ⟨bake_data_eq S L hL, offsetsOf_length S L, hgetD 0 (by omega), ?_, ?_, hgetD, ?_⟩
  · intro i j hij hj
    rw [hgetD i (by omega), hgetD j hj]
    exact sum_take_mono _ i j hij
  · rw [hgetD L.length (by omega)]
    simp only [cumSize, dataSize]
    rw [List.take_of_length_le (by simp [pickledOf])]
  · intro i hi
    rw [hgetD i (by omega), hgetD (i + 1) (by omega)]
    exact sliceBytes_dataOf S L i hi

/-- Witness for C7 at `L = [2, 0]` with `natSerializer`. -/
theorem c7_offset_table_witness :
    bake_data natSerializer (.list [2, 0]) =
      .ok ([2, 0].length, 0, ([2, 0].length + 1) * 8,
        tableOf natSerializer [2, 0] ++ dataOf natSerializer [2, 0]) ∧
      (offsetsOf natSerializer [2, 0]).length = [2, 0].length + 1 ∧
      (offsetsOf natSerializer [2, 0]).getD 0 0 = 0 ∧
      (∀ i j, i ≤ j → j ≤ [2, 0].length →
        (offsetsOf natSerializer [2, 0]).getD i 0 ≤
          (offsetsOf natSerializer [2, 0]).getD j 0) ∧
      (offsetsOf natSerializer [2, 0]).getD [2, 0].length 0 =
        dataSize natSerializer [2, 0] ∧
      (∀ i, i ≤ [2, 0].length →
        (offsetsOf natSerializer [2, 0]).getD i 0 = cumSize natSerializer [2, 0] i) ∧
      (∀ (i : Nat) (hi : i < [2, 0].length),
        sliceBytes (dataOf natSerializer [2, 0])
          ((offsetsOf natSerializer [2, 0]).getD i 0)
          ((offsetsOf natSerializer [2, 0]).getD (i + 1) 0) =
            natSerializer.dumps ([2, 0][i])) :=
  c7_offset_table natSerializer [2, 0] (by decide)

/-- Witness for C8 on the concrete container built from `[5]`. -/
theorem c8_zero_identity_witness :
    (⟨[1], [0], [16], [bakedBuf natSerializer [5]]⟩ : MPSharedList Nat).add
        (.int 0) = .ok ⟨[1], [0], [16], [bakedBuf natSerializer [5]]⟩ ∧
      (⟨[1], [0], [16], [bakedBuf natSerializer [5]]⟩ : MPSharedList Nat).radd
        (.int 0) = .ok ⟨[1], [0], [16], [bakedBuf natSerializer [5]]⟩ :=
  c8_zero_identity ⟨[1], [0], [16], [bakedBuf natSerializer [5]]⟩

/-- Witness for C10 on the concrete container built from `[1, 2]` and the
nonzero integer `5`. -/
theorem c10_any_int_identity_witness :
    (⟨[2], [0], [24], [bakedBuf natSerializer [1, 2]]⟩ : MPSharedList Nat).add
        (.int 5) = .ok ⟨[2], [0], [24], [bakedBuf natSerializer [1, 2]]⟩ ∧
      (⟨[2], [0], [24], [bakedBuf natSerializer [1, 2]]⟩ : MPSharedList Nat).radd
        (.int 5) = .ok ⟨[2], [0], [24], [bakedBuf natSerializer [1, 2]]⟩ :=
  c10_any_int_identity ⟨[2], [0], [24], [bakedBuf natSerializer [1, 2]]⟩ 5

/-- Witness for C9 at the concrete pending list `[(16, [1]), (17, [1, 1])]`. -/
theorem c9_queue_discipline_witness :
    ArrayFiller.get_data [(16, [1]), (17, [1, 1])] =
      (some (16, [1]), [(17, [1, 1])]) ∧
      ArrayFiller.get_data ([] : List (Nat × List Nat)) = (Option.none, []) ∧
      ArrayFiller.on_data_return [(17, [1, 1])] (16, [1]) =
        [(16, [1]), (17, [1, 1])] ∧
      ArrayFiller.get_data (ArrayFiller.on_data_return [(17, [1, 1])] (16, [1])) =
        (some (16, [1]), [(17, [1, 1])]) := by
  have h := c9_queue_discipline (δ := Nat × List Nat)
  exact ⟨h.1 (16, [1]) [(17, [1, 1])], h.2.1, h.2.2.1 [(17, [1, 1])] (16, [1]),
    h.2.2.2 [(17, [1, 1])] (16, [1])⟩

end DFL
